import Mathlib

/-
Verification of the CRDT synchronization engine of the Actual fork
(packages/loot-core/src/server/sync/index.ts, as excerpted in the
repository's architecture documentation, together with the messages_crdt
schema from packages/loot-core/src/server/sql/init.sql).

The embedding is shallow: SQLite tables become association lists, the
message batch pipeline of `applyMessages` becomes explicit state passing,
and `db.transaction` becomes an all-or-nothing Except wrapper, matching
the rollback contract of the storage collaborator (spec section 6).
Timestamps are handled in their string form throughout `applyMessages`,
exactly as the source does (every comparison and storage operation uses
`timestamp.toString()`).
-/

namespace ActualSync

/-- Scalar message values: `string | number | null` in the source. -/
inductive Value where
  | str (s : String)
  | num (n : Int)
  | null
deriving DecidableEq, Repr

/-- Modelled from the spec: `serializeValue` is not in the excerpt; values
inside messages are "serialized as tagged scalars ... to survive encoding
round-trips exactly" (spec section 6), so we use an injective tagged
rendering. -/
def serializeValue : Value → String
  | .null => "0:"
  | .num n => "N:" ++ toString n
  | .str s => "S:" ++ s

/-- A sync message: field `column` of entity `row` in `dataset` was set to
`value` as of `timestamp`. The `timestamp` field holds the string form
(`Timestamp.toString()`), which is what `applyMessages` sorts by and what
the database stores. `old` is the flag set by `compareMessages`. -/
structure Message where
  dataset : String
  row : String
  column : String
  timestamp : String
  value : Value
  old : Bool
deriving DecidableEq, Repr

/-- A persisted row of the `messages_crdt` table
(`timestamp, dataset, row, column, value`), with `value` serialized. -/
structure LogEntry where
  timestamp : String
  dataset : String
  row : String
  column : String
  value : String
deriving DecidableEq, Repr

/-- The `messages_crdt` row written for a message by the INSERT in
`applyMessages`. -/
def toLogEntry (m : Message) : LogEntry :=
  ⟨m.timestamp, m.dataset, m.row, m.column, serializeValue m.value⟩

/-- Modelled from the spec: the MerkleTrie is abstracted by the multiset of
timestamps inserted into it. By the determinism contract (spec section 4.2)
the trie hash is a pure function of the set of inserted timestamps, so
equality of this abstraction models equality of hashes. -/
def Merkle : Type := Multiset String

instance : DecidableEq Merkle := inferInstanceAs (DecidableEq (Multiset String))

instance : Membership String Merkle := inferInstanceAs (Membership String (Multiset String))

/-- `merkle.insert(trie, timestamp)` on the multiset abstraction. -/
def merkleInsert (m : Merkle) (t : String) : Merkle :=
  (t ::ₘ (m : Multiset String) : Multiset String)

/-- Modelled from the spec: `merkle.prune` bounds the trie's size while
"preserving hash correctness" (spec section 4.2); on the
multiset-of-timestamps abstraction it is therefore the identity. -/
def merklePrune (m : Merkle) : Merkle := m

/-- The persisted Clock: `(timestamp, merkle)`, stored as the single row of
`messages_clock`. -/
structure Clock where
  timestamp : String
  merkle : Merkle
deriving DecidableEq

/-- Identity of one database cell, `(dataset, row, column)`. -/
structure Cell where
  dataset : String
  row : String
  column : String
deriving DecidableEq, Repr

/-- The cell a message writes to. -/
def cellOf (m : Message) : Cell := ⟨m.dataset, m.row, m.column⟩

/-- Live row state as a cell-level association list (the transactional
key/row store of spec section 6, at cell granularity). -/
def Rows : Type := List (Cell × Value)

instance : DecidableEq Rows := inferInstanceAs (DecidableEq (List (Cell × Value)))

def getCell (rows : Rows) (c : Cell) : Option Value :=
  match rows with
  | [] => none
  | (c₂, v) :: rest => if c₂ = c then some v else getCell rest c

def setCell (rows : Rows) (c : Cell) (v : Value) : Rows :=
  match rows with
  | [] => [(c, v)]
  | (c₂, v₂) :: rest => if c₂ = c then (c, v) :: rest else (c₂, v₂) :: setCell rest c v

/-- The persisted database state touched by `applyMessages`: the live rows,
the `messages_crdt` append-only log, the `messages_clock` row, and the
budget-type preference written by the `setBudgetType` special case. -/
structure DbState where
  rows : Rows
  log : List LogEntry
  clockRow : Clock
  budgetType : Option Value
deriving DecidableEq

/-- Does the log already contain this exact timestamp?  This is the UNIQUE
constraint on `messages_crdt.timestamp` (init.sql). -/
def logHasTs (log : List LogEntry) (t : String) : Bool :=
  log.any fun e => decide (e.timestamp = t)

/-- Errors surfaced by the modelled storage layer and coordinator. -/
inductive SyncError where
  | uniqueViolation (timestamp : String)
  | outOfSync
deriving DecidableEq, Repr

instance {α β : Type} [DecidableEq α] [DecidableEq β] : DecidableEq (Except α β) :=
  fun a b =>
    match a, b with
    | .error x, .error y =>
      if h : x = y then .isTrue (h ▸ rfl)
      else .isFalse fun hc => h (Except.error.inj hc)
    | .ok x, .ok y =>
      if h : x = y then .isTrue (h ▸ rfl)
      else .isFalse fun hc => h (Except.ok.inj hc)
    | .error _, .ok _ => .isFalse fun hc => Except.noConfusion hc
    | .ok _, .error _ => .isFalse fun hc => Except.noConfusion hc

/-- The INSERT INTO `messages_crdt` run for every message in enabled mode.
Per init.sql the `timestamp` column is UNIQUE, so inserting an
already-present timestamp raises, which aborts the enclosing transaction. -/
def insertMessageCrdt (log : List LogEntry) (m : Message) :
    Except SyncError (List LogEntry) :=
  if logHasTs log m.timestamp then .error (.uniqueViolation m.timestamp)
  else .ok (log ++ [toLogEntry m])

/-- The four syncing modes (spec section 6); `import` is rendered
`importMode`. -/
inductive Mode where
  | enabled
  | disabled
  | offline
  | importMode
deriving DecidableEq, Repr

/-- Modelled from the spec: `checkSyncingMode` itself is not in the excerpt;
it tests the process-wide syncing mode against the asked-for mode, and in
`applyMessages` the `import` case is handled first, so the remaining checks
are plain equality tests on the current mode. -/
def checkSyncingMode (current target : Mode) : Bool :=
  decide (current = target)

/-- Lexicographic strict comparison of code-point lists: the order in which
both the JS string comparison of the sort comparator and SQLite's TEXT
ordering compare timestamp strings. -/
def lexLtN : List Nat → List Nat → Bool
  | [], [] => false
  | [], _ :: _ => true
  | _ :: _, [] => false
  | a :: as, b :: bs => decide (a < b) || (decide (a = b) && lexLtN as bs)

/-- A string as its code-point list, the comparison key. -/
def tsKey (s : String) : List Nat := s.data.map Char.toNat

/-- Strict string order (`t1 < t2` of the sort comparator, `timestamp > ?`
of the SQL range queries). -/
def tsLtb (a b : String) : Bool := lexLtN (tsKey a) (tsKey b)

/-- Non-strict string order, `a ≤ b` as not `b < a`. -/
def tsLeb (a b : String) : Bool := !tsLtb b a

/-- Modelled from the spec: `compareMessages` is not in the excerpt.  Per
the comment at its call site it "filters out already applied messages and
determines if a message is old or not": a message whose exact timestamp is
already in `messages_crdt` is dropped (identity for deduplication is the
timestamp, spec section 3); a message superseded by a strictly newer log
entry for the same cell is kept but marked `old`; the rest are new. -/
def compareMessages (log : List LogEntry) (msgs : List Message) : List Message :=
  msgs.filterMap fun m =>
    if logHasTs log m.timestamp then none
    else if log.any fun e =>
        decide (e.dataset = m.dataset) && decide (e.row = m.row) &&
        decide (e.column = m.column) && tsLtb m.timestamp e.timestamp then
      some { m with old := true }
    else some { m with old := false }

/-- The comparator of the `[...].sort(...)` call in `applyMessages`:
ascending order of the string form of the timestamps. -/
def msgLe (a b : Message) : Prop := tsLeb a.timestamp b.timestamp = true

instance : DecidableRel msgLe := fun a b =>
  inferInstanceAs (Decidable (tsLeb a.timestamp b.timestamp = true))

/-- `messages = [...messages].sort(comparator)` — sort the batch ascending
by timestamp string. -/
def sortMessages (msgs : List Message) : List Message :=
  msgs.insertionSort msgLe

/-- Modelled from the spec: the row write done by `apply(msg, prev)` (not in
the excerpt) is the storage collaborator's `set(dataset,row,column,value)`
(spec section 6); the `prefs` dataset has no backing table and is collected
into `prefsToSet` at the call site instead, so `apply` leaves the rows
unchanged for it. -/
def applyMsgRow (rows : Rows) (m : Message) : Rows :=
  if m.dataset = "prefs" then rows
  else setCell rows (cellOf m) m.value

/-- One message's effect on live rows inside the transaction loop: skipped
entirely when the message is old. -/
def rowsApplyStep (rows : Rows) (m : Message) : Rows :=
  if m.old then rows else applyMsgRow rows m

/-- The row-state effect of processing a message list in order. -/
def rowsApply (msgs : List Message) (rows : Rows) : Rows :=
  msgs.foldl rowsApplyStep rows

/-- State threaded through the body of the `db.transaction` closure: the
draft database, the in-progress `currentMerkle`, and the accumulated
`prefsToSet` map (kept in write order). -/
structure TxState where
  db : DbState
  merkle : Merkle
  prefsToSet : List (String × Value)
deriving DecidableEq

/-- One iteration of the `for (const msg of messages)` loop in the
transaction of `applyMessages`: skip the row write for old messages, record
`prefs` writes in `prefsToSet`, in enabled mode INSERT into `messages_crdt`
(which raises on a duplicate timestamp) and fold the timestamp into
`currentMerkle`, and run the `setBudgetType` special case. -/
def txStep (enabledMode : Bool) (st : TxState) (m : Message) :
    Except SyncError TxState :=
  let rows := rowsApplyStep st.db.rows m
  let prefsToSet :=
    if !m.old && m.dataset = "prefs" then st.prefsToSet ++ [(m.row, m.value)]
    else st.prefsToSet
  let budgetType :=
    if m.dataset = "preferences" ∧ m.row = "budgetType" then some m.value
    else st.db.budgetType
  if enabledMode then
    match insertMessageCrdt st.db.log m with
    | .error e => .error e
    | .ok log₂ =>
        .ok ⟨⟨rows, log₂, st.db.clockRow, budgetType⟩,
             merkleInsert st.merkle m.timestamp, prefsToSet⟩
  else
    .ok ⟨⟨rows, st.db.log, st.db.clockRow, budgetType⟩, st.merkle, prefsToSet⟩

/-- The whole message loop of the transaction, aborting at the first
storage error. -/
def txRun (enabledMode : Bool) : List Message → TxState → Except SyncError TxState
  | [], st => .ok st
  | m :: rest, st =>
    match txStep enabledMode st m with
    | .error e => .error e
    | .ok st₂ => txRun enabledMode rest st₂

/-- Result of a committed transaction. -/
structure TxResult where
  db : DbState
  prefsToSet : List (String × Value)
deriving DecidableEq

/-- The `db.transaction(() => ...)` call of `applyMessages`: the clock is
snapshotted before the body runs, the body threads the draft state, and in
enabled mode the final `merkle.prune` plus the
`INSERT OR REPLACE INTO messages_clock` persist the updated Clock.  The
Except result is the storage collaborator's atomicity contract (spec
section 6): on any error the draft is discarded and nothing commits. -/
def applyTransaction (enabledMode : Bool) (db : DbState) (msgs : List Message) :
    Except SyncError TxResult :=
  match txRun enabledMode msgs ⟨db, db.clockRow.merkle, []⟩ with
  | .error e => .error e
  | .ok st =>
    if enabledMode then
      .ok ⟨{ st.db with clockRow := ⟨db.clockRow.timestamp, merklePrune st.merkle⟩ },
           st.prefsToSet⟩
    else
      .ok ⟨st.db, st.prefsToSet⟩

/-- Is a non-`prefs` row of the batch touching this cell's row?  Mirrors the
`idsPerTable` aggregation in `applyMessages`, which collects `(dataset, row)`
pairs of every message except the `prefs` dataset. -/
def touchesBatch (msgs : List Message) (c : Cell) : Bool :=
  msgs.any fun m =>
    !decide (m.dataset = "prefs") && decide (m.dataset = c.dataset) &&
    decide (m.row = c.row)

/-- `fetchData()` of `applyMessages`: the prior values of every
`(dataset, row)` pair touched by the batch, read before any mutation. -/
def fetchData (db : DbState) (msgs : List Message) : List (Cell × Value) :=
  db.rows.filter fun p => touchesBatch msgs p.1

/-- The world visible around a call: the persisted database plus the undo
collaborator's record of `(messages, oldData)` pairs it has received. -/
structure World where
  db : DbState
  undoLog : List (List Message × List (Cell × Value))
deriving DecidableEq

/-- Modelled from the spec: `applyMessagesForImport` is not in the excerpt;
the `import` mode is the bulk-load fast path that applies message values
directly, "bypassing conflict/trie bookkeeping" (spec section 6). -/
def applyMessagesForImport (db : DbState) (msgs : List Message) : DbState :=
  { db with rows := rowsApply msgs db.rows }

/-- What a call to `applyMessages` produced: the world afterwards, the error
surfaced to the caller (if the transaction aborted), and the synced prefs
collected for the post-commit step. -/
structure ApplyOutcome where
  world : World
  error : Option SyncError
  prefsToSet : List (String × Value)
deriving DecidableEq

/-- The batch actually processed by the sort/apply pipeline: in enabled mode
the result of `compareMessages` against the current log, otherwise the batch
as given. -/
def effectiveMessages (mode : Mode) (log : List LogEntry) (msgs : List Message) :
    List Message :=
  if checkSyncingMode mode .enabled then compareMessages log msgs else msgs

/-- `applyMessages(messages)` (sync/index.ts): the import fast path;
otherwise `compareMessages` in enabled mode, the sort by timestamp string,
the `oldData` pre-fetch, `undo.appendMessages(messages, oldData)` (before
the transaction), and the atomic transaction.  On a transaction error the
caller sees that error and the database is exactly as before. -/
def applyMessages (mode : Mode) (w : World) (msgs : List Message) : ApplyOutcome :=
  if checkSyncingMode mode .importMode then
    ⟨{ w with db := applyMessagesForImport w.db msgs }, none, []⟩
  else
    let sorted := sortMessages (effectiveMessages mode w.db.log msgs)
    let oldData := fetchData w.db sorted
    let w₁ : World := { w with undoLog := w.undoLog ++ [(sorted, oldData)] }
    match applyTransaction (checkSyncingMode mode .enabled) w₁.db sorted with
    | .error e => ⟨w₁, some e, []⟩
    | .ok res => ⟨{ w₁ with db := res.db }, none, res.prefsToSet⟩

/-- A hybrid logical clock timestamp, `(millis, counter, replicaId)`
(spec section 3).  `_fullSync` builds its default `since` cursor as
`new Timestamp(Date.now() - 5 * 60 * 1000, 0, '0')`. -/
structure Timestamp where
  millis : Nat
  counter : Nat
  node : String
deriving DecidableEq, Repr

/-- Left-pad a numeral with zeros to the given width. -/
def padNum (n w : Nat) : String :=
  let s := toString n
  String.mk (List.replicate (w - s.length) '0') ++ s

/-- Modelled from the spec: `Timestamp.toString()` is not in the excerpt;
it renders the three fields in a fixed-width, order-preserving form
(spec section 3's total order is millis, then counter, then replicaId). -/
def Timestamp.toStr (t : Timestamp) : String :=
  padNum t.millis 15 ++ "-" ++ padNum t.counter 5 ++ "-" ++ t.node

/-- The default `since` cursor of `_fullSync`, "5 minutes ago":
`new Timestamp(Date.now() - 5 * 60 * 1000, 0, '0')`. -/
def defaultSinceTs (now : Nat) : Timestamp :=
  ⟨now - 5 * 60 * 1000, 0, "0"⟩

/-- `since = sinceTimestamp || lastSyncedTimestamp || defaultSince` in
`_fullSync` (absent strings modelled as `none`). -/
def resolveSince (sinceArg lastSynced : Option String) (now : Nat) : String :=
  sinceArg.getD (lastSynced.getD (defaultSinceTs now).toStr)

/-- Modelled from the spec: `getMessagesSince` is not in the excerpt; it is
the MutationLog range query returning every entry with `timestamp > since`
(spec section 4.4 step 2). -/
def getMessagesSince (log : List LogEntry) (since : String) : List LogEntry :=
  log.filter fun e => tsLtb since e.timestamp

/-- The prefs snapshot `_fullSync` destructures at its start:
`{ id, cloudFileId, groupId, lastSyncedTimestamp }`. -/
structure Prefs where
  id : Option String
  cloudFileId : Option String
  groupId : Option String
  lastSyncedTimestamp : Option String
deriving DecidableEq, Repr

/-- The encoded sync request `(groupId, cloudFileId, since, messages)` that
`_fullSync` posts to the server. -/
structure SyncRequest where
  groupId : Option String
  fileId : Option String
  since : String
  messages : List LogEntry
deriving DecidableEq, Repr

/-- The decoded server response: new messages plus the server's merkle
(abstracted, like the local trie, by its timestamp multiset). -/
structure SyncResponse where
  messages : List Message
  merkle : Merkle
deriving DecidableEq

/-- The request a `_fullSync` round builds from its prefs snapshot, the
local log, the wall clock and the explicit cursor argument. -/
def fullSyncRequest (p : Prefs) (db : DbState) (now : Nat)
    (sinceArg : Option String) : SyncRequest :=
  let since := resolveSince sinceArg p.lastSyncedTimestamp now
  ⟨p.groupId, p.cloudFileId, since, getMessagesSince db.log since⟩

/-- Modelled from the spec: `receiveMessages` is not in the excerpt; it
routes the peer's messages into the atomic apply engine (spec section 4.4
step 4).  The logical-clock `receive` advance is outside this model. -/
def receiveMessages (w : World) (msgs : List Message) : ApplyOutcome :=
  applyMessages .enabled w msgs

/-- One round of `_fullSync` up to (and including) the application of the
peer's messages: the disabled/offline/no-file early return, the `since`
resolution, the network exchange (`peer` is the round-trip), the
file/replica-group identity re-check after the round-trip (`prefsAfter` is
what `prefs.getPrefs()` returns then), and `receiveMessages`.  The merkle
diff and the retry recursion that follow are modelled by `fullSyncLoop`. -/
def fullSyncStep (mode : Mode) (w : World) (prefsBefore : Option Prefs)
    (now : Nat) (sinceArg : Option String) (peer : SyncRequest → SyncResponse)
    (prefsAfter : Option Prefs) : World × Except SyncError (List Message) :=
  match prefsBefore with
  | none => (w, .ok [])
  | some p =>
    if checkSyncingMode mode .disabled || checkSyncingMode mode .offline
        || p.id.isNone then
      (w, .ok [])
    else
      let req := fullSyncRequest p w.db now sinceArg
      let res := peer req
      match prefsAfter with
      | none => (w, .ok [])
      | some p₂ =>
        if p₂.groupId ≠ p.groupId then (w, .ok [])
        else
          let out := if res.messages.isEmpty then ⟨w, none, []⟩
                     else receiveMessages w res.messages
          match out.error with
          | some e => (out.world, .error e)
          | none => (out.world, .ok res.messages)

/-- Outcome of the bounded `_fullSync` retry loop. -/
inductive SyncOutcome where
  | converged
  | outOfSync (round : Nat)
  | stalled
deriving DecidableEq, Repr

/-- The retry loop of `_fullSync`, abstracted over the sequence `d` of
merkle-diff results the rounds produce (`d k = none` means the hashes
matched in round `k`).  The stop test is the source's
`(count >= 10 && diffTime === prevDiffTime) || count >= 100`.  Modelled
from the spec: the recursion tail of `_fullSync` is not in the excerpt;
per spec section 4.4 each non-converged round repeats with `count + 1` and
the round's diff as the new `prevDiffTime`, rounds being counted from 1
("total rounds ≥ 100" aborts).  `fuel` only makes the recursion structural;
`runFullSyncLoop` starts with more fuel than the stop test can consume. -/
def fullSyncLoop (d : Nat → Option String) :
    Nat → Nat → Option String → SyncOutcome
  | 0, _, _ => .stalled
  | fuel + 1, count, prevDiff =>
    match d count with
    | none => .converged
    | some diffTime =>
      if (10 ≤ count ∧ some diffTime = prevDiff) ∨ 100 ≤ count then
        .outOfSync count
      else
        fullSyncLoop d fuel (count + 1) (some diffTime)

/-- Run the `_fullSync` retry loop from its first round. -/
def runFullSyncLoop (d : Nat → Option String) : SyncOutcome :=
  fullSyncLoop d 200 1 none

/-! Order facts about the timestamp-string comparison. -/

theorem lexLtN_asymm : ∀ x y, lexLtN x y = true → lexLtN y x = false
  | [], [], h => by simp [lexLtN] at h
  | [], _ :: _, _ => by simp [lexLtN]
  | _ :: _, [], h => by simp [lexLtN] at h
  | a :: as, b :: bs, h => by
    simp only [lexLtN, Bool.or_eq_true, Bool.and_eq_true, decide_eq_true_eq] at h
    simp only [lexLtN, Bool.or_eq_false_iff, Bool.and_eq_false_iff,
      decide_eq_false_iff_not]
    rcases h with h | ⟨rfl, h⟩
    · exact ⟨by omega, .inl (by omega)⟩
    · exact ⟨by omega, .inr (lexLtN_asymm as bs h)⟩

theorem lexLtN_false_trans :
    ∀ x y z, lexLtN x y = false → lexLtN y z = false → lexLtN x z = false
  | [], [], [], _, _ => rfl
  | [], [], _ :: _, _, h₂ => by simp [lexLtN] at h₂
  | [], _ :: _, _, h₁, _ => by simp [lexLtN] at h₁
  | _ :: _, _, [], _, _ => rfl
  | _ :: _, [], _ :: _, _, h₂ => by simp [lexLtN] at h₂
  | a :: as, b :: bs, c :: cs, h₁, h₂ => by
    simp only [lexLtN, Bool.or_eq_false_iff, Bool.and_eq_false_iff,
      decide_eq_false_iff_not] at h₁ h₂
    simp only [lexLtN, Bool.or_eq_false_iff, Bool.and_eq_false_iff,
      decide_eq_false_iff_not]
    refine ⟨by omega, ?_⟩
    by_cases hac : a = c
    · have hab : a = b := by omega
      have hbc : b = c := by omega
      rcases h₁.2 with h | h
      · exact absurd hab h
      · rcases h₂.2 with h₂₂ | h₂₂
        · exact absurd hbc h₂₂
        · exact .inr (lexLtN_false_trans as bs cs h h₂₂)
    · exact .inl hac

instance : IsTotal Message msgLe := by
  constructor
  intro a b
  simp only [msgLe, tsLeb, Bool.not_eq_true']
  cases h : tsLtb b.timestamp a.timestamp with
  | false => exact .inl rfl
  | true => exact .inr (lexLtN_asymm _ _ h)

instance : IsTrans Message msgLe := by
  constructor
  intro a b c h₁ h₂
  simp only [msgLe, tsLeb, Bool.not_eq_true'] at h₁ h₂ ⊢
  exact lexLtN_false_trans _ _ _ h₂ h₁

/-! Lemmas about the cell store. -/

theorem getCell_setCell_self (rows : Rows) (c : Cell) (v : Value) :
    getCell (setCell rows c v) c = some v := by
  induction rows with
  | nil => simp [setCell, getCell]
  | cons p rest ih =>
    obtain ⟨c₂, v₂⟩ := p
    by_cases h : c₂ = c
    · simp [setCell, h, getCell]
    · simp [setCell, h, getCell, ih]

theorem getCell_setCell_ne (rows : Rows) {c c₂ : Cell} (v : Value) (h : ¬c = c₂) :
    getCell (setCell rows c v) c₂ = getCell rows c₂ := by
  induction rows with
  | nil => simp [setCell, getCell, h]
  | cons p rest ih =>
    obtain ⟨c₃, v₃⟩ := p
    by_cases h₃ : c₃ = c
    · subst h₃
      simp [setCell, getCell, h]
    · have h₅ : ¬c₂ = c := fun hcc => h hcc.symm
      by_cases h₄ : c₃ = c₂
      · simp [setCell, h₃, getCell, h₄, h₅]
      · simp [setCell, h₃, getCell, h₄, ih]

/-- Processing further messages that either skip the cell or rewrite the
same value leaves the cell's value in place. -/
theorem getCell_rowsApply_keep (c : Cell) (v : Value) :
    ∀ (l : List Message) (rows : Rows),
      (∀ m ∈ l, m.old = false → m.dataset ≠ "prefs" → cellOf m = c → m.value = v) →
      getCell rows c = some v → getCell (rowsApply l rows) c = some v := by
  intro l
  induction l with
  | nil => intro rows _ h; exact h
  | cons m rest ih =>
    intro rows hval h
    have hstep : getCell (rowsApplyStep rows m) c = some v := by
      unfold rowsApplyStep applyMsgRow
      rcases hold : m.old with _ | _
      · simp only [Bool.false_eq_true, if_false]
        by_cases hp : m.dataset = "prefs"
        · simpa [hp] using h
        · rw [if_neg hp]
          by_cases hc : cellOf m = c
          · rw [hc, getCell_setCell_self,
              hval m (List.mem_cons_self m rest) hold hp hc]
          · rw [getCell_setCell_ne _ _ hc]
            exact h
      · simpa using h
    have : rowsApply (m :: rest) rows = rowsApply rest (rowsApplyStep rows m) := rfl
    rw [this]
    exact ih (rowsApplyStep rows m) (fun m₂ hm₂ => hval m₂ (List.mem_cons_of_mem m hm₂)) hstep

/-! Lemmas about the transaction body. -/

/-- The budget-type field after one loop iteration. -/
def btAfter (st : TxState) (m : Message) : Option Value :=
  if m.dataset = "preferences" ∧ m.row = "budgetType" then some m.value
  else st.db.budgetType

/-- The `prefsToSet` accumulator after one loop iteration. -/
def ptsAfter (st : TxState) (m : Message) : List (String × Value) :=
  if !m.old && m.dataset = "prefs" then st.prefsToSet ++ [(m.row, m.value)]
  else st.prefsToSet

theorem txStep_false_eq (st : TxState) (m : Message) :
    txStep false st m =
      .ok ⟨⟨rowsApplyStep st.db.rows m, st.db.log, st.db.clockRow, btAfter st m⟩,
           st.merkle, ptsAfter st m⟩ := by
  simp [txStep, btAfter, ptsAfter]

theorem txStep_true_error (st : TxState) (m : Message) (e : SyncError)
    (h : insertMessageCrdt st.db.log m = .error e) : txStep true st m = .error e := by
  simp [txStep, h]

theorem txStep_true_ok (st : TxState) (m : Message) (log₂ : List LogEntry)
    (h : insertMessageCrdt st.db.log m = .ok log₂) :
    txStep true st m =
      .ok ⟨⟨rowsApplyStep st.db.rows m, log₂, st.db.clockRow, btAfter st m⟩,
           merkleInsert st.merkle m.timestamp, ptsAfter st m⟩ := by
  simp [txStep, h, btAfter, ptsAfter]

theorem txRun_cons (em : Bool) (m : Message) (rest : List Message) (st : TxState) :
    txRun em (m :: rest) st =
      match txStep em st m with
      | .error e => .error e
      | .ok st₂ => txRun em rest st₂ := rfl

theorem txRun_false_ok (l : List Message) :
    ∀ st : TxState,
      ∃ st₂, txRun false l st = .ok st₂ ∧
        st₂.db.rows = rowsApply l st.db.rows ∧
        st₂.db.log = st.db.log ∧
        st₂.db.clockRow = st.db.clockRow ∧
        st₂.merkle = st.merkle := by
  induction l with
  | nil => intro st; exact ⟨st, rfl, rfl, rfl, rfl, rfl⟩
  | cons m rest ih =>
    intro st
    obtain ⟨st₂, hrun, hrows, hlog, hclock, hmerkle⟩ :=
      ih ⟨⟨rowsApplyStep st.db.rows m, st.db.log, st.db.clockRow, btAfter st m⟩,
          st.merkle, ptsAfter st m⟩
    refine ⟨st₂, ?_, hrows, hlog, hclock, hmerkle⟩
    rw [txRun_cons, txStep_false_eq]
    exact hrun

theorem insertMessageCrdt_ok_eq (log : List LogEntry) (m : Message)
    (log₂ : List LogEntry) (h : insertMessageCrdt log m = .ok log₂) :
    log₂ = log ++ [toLogEntry m] := by
  unfold insertMessageCrdt at h
  by_cases hts : logHasTs log m.timestamp = true
  · rw [if_pos hts] at h
    cases h
  · rw [if_neg hts] at h
    cases h
    rfl

theorem txRun_true_components (l : List Message) :
    ∀ (st st₂ : TxState), txRun true l st = .ok st₂ →
      st₂.db.rows = rowsApply l st.db.rows ∧
      st₂.db.log = st.db.log ++ l.map toLogEntry ∧
      st₂.db.clockRow = st.db.clockRow ∧
      st₂.merkle = l.foldl (fun acc m => merkleInsert acc m.timestamp) st.merkle := by
  induction l with
  | nil =>
    intro st st₂ h
    cases h
    exact ⟨rfl, by simp, rfl, rfl⟩
  | cons m rest ih =>
    intro st st₂ h
    rw [txRun_cons] at h
    cases hins : insertMessageCrdt st.db.log m with
    | error e => rw [txStep_true_error st m e hins] at h; cases h
    | ok log₂ =>
      rw [txStep_true_ok st m log₂ hins] at h
      obtain ⟨hrows, hlog, hclock, hmerkle⟩ := ih _ _ h
      have hlog₂ := insertMessageCrdt_ok_eq _ _ _ hins
      subst hlog₂
      exact ⟨hrows, by simpa [List.append_assoc] using hlog, hclock, hmerkle⟩

theorem logHasTs_append (l₁ l₂ : List LogEntry) (t : String) :
    logHasTs (l₁ ++ l₂) t = (logHasTs l₁ t || logHasTs l₂ t) := by
  simp [logHasTs, List.any_append]

theorem txRun_true_ok_of_fresh (l : List Message) :
    ∀ st : TxState,
      l.Pairwise (fun m₁ m₂ => m₁.timestamp ≠ m₂.timestamp) →
      (∀ m ∈ l, logHasTs st.db.log m.timestamp = false) →
      ∃ st₂, txRun true l st = .ok st₂ := by
  induction l with
  | nil => intro st _ _; exact ⟨st, rfl⟩
  | cons m rest ih =>
    intro st hpw hfresh
    have hm : logHasTs st.db.log m.timestamp = false :=
      hfresh m (List.mem_cons_self m rest)
    have hins : insertMessageCrdt st.db.log m =
        .ok (st.db.log ++ [toLogEntry m]) := by
      simp [insertMessageCrdt, hm]
    rw [List.pairwise_cons] at hpw
    have hfresh₂ : ∀ m₂ ∈ rest,
        logHasTs (st.db.log ++ [toLogEntry m]) m₂.timestamp = false := by
      intro m₂ hm₂
      rw [logHasTs_append, hfresh m₂ (List.mem_cons_of_mem m hm₂)]
      simp [logHasTs, toLogEntry, hpw.1 m₂ hm₂]
    obtain ⟨st₂, hrun⟩ := ih
      ⟨⟨rowsApplyStep st.db.rows m, st.db.log ++ [toLogEntry m], st.db.clockRow,
        btAfter st m⟩,
       merkleInsert st.merkle m.timestamp, ptsAfter st m⟩
      hpw.2 hfresh₂
    refine ⟨st₂, ?_⟩
    rw [txRun_cons, txStep_true_ok st m _ hins]
    exact hrun

/-! Lemmas about the whole transaction and about `applyMessages`. -/

theorem applyTransaction_false_ok (db : DbState) (l : List Message) :
    ∃ r, applyTransaction false db l = .ok r ∧
      r.db.rows = rowsApply l db.rows ∧
      r.db.log = db.log ∧
      r.db.clockRow = db.clockRow := by
  obtain ⟨st₂, hrun, hrows, hlog, hclock, _⟩ :=
    txRun_false_ok l ⟨db, db.clockRow.merkle, []⟩
  refine ⟨⟨st₂.db, st₂.prefsToSet⟩, ?_, hrows, hlog, hclock⟩
  unfold applyTransaction
  rw [hrun]
  simp

/-- The merkle value accumulated by folding a message list into a trie. -/
def merkleFold (l : List Message) (acc : Merkle) : Merkle :=
  l.foldl (fun a m => merkleInsert a m.timestamp) acc

theorem applyTransaction_true_components (db : DbState) (l : List Message)
    (r : TxResult) (h : applyTransaction true db l = .ok r) :
    r.db.rows = rowsApply l db.rows ∧
    r.db.log = db.log ++ l.map toLogEntry ∧
    r.db.clockRow =
      ⟨db.clockRow.timestamp, merklePrune (merkleFold l db.clockRow.merkle)⟩ := by
  unfold applyTransaction at h
  cases hrun : txRun true l ⟨db, db.clockRow.merkle, []⟩ with
  | error e =>
    rw [hrun] at h
    cases h
  | ok st =>
    rw [hrun] at h
    simp only [if_true] at h
    obtain ⟨hrows, hlog, hclock, hmerkle⟩ := txRun_true_components l _ _ hrun
    cases h
    exact ⟨hrows, hlog, by rw [hmerkle]; rfl⟩

theorem applyTransaction_true_ok_of_fresh (db : DbState) (l : List Message)
    (hpw : l.Pairwise fun m₁ m₂ => m₁.timestamp ≠ m₂.timestamp)
    (hfresh : ∀ m ∈ l, logHasTs db.log m.timestamp = false) :
    ∃ r, applyTransaction true db l = .ok r := by
  obtain ⟨st₂, hrun⟩ := txRun_true_ok_of_fresh l ⟨db, db.clockRow.merkle, []⟩ hpw hfresh
  refine ⟨⟨{ st₂.db with
      clockRow := ⟨db.clockRow.timestamp, merklePrune st₂.merkle⟩ },
      st₂.prefsToSet⟩, ?_⟩
  unfold applyTransaction
  rw [hrun]
  simp

/-! Lemmas about `merkleFold`. -/

theorem mem_merkleFold_acc (l : List Message) :
    ∀ (acc : Merkle) (t : String), t ∈ acc → t ∈ merkleFold l acc := by
  induction l with
  | nil => intro acc t h; exact h
  | cons m rest ih =>
    intro acc t h
    exact ih (merkleInsert acc m.timestamp) t (Multiset.mem_cons_of_mem h)

theorem mem_merkleFold_of_mem (l : List Message) :
    ∀ (acc : Merkle) (m : Message), m ∈ l → m.timestamp ∈ merkleFold l acc := by
  induction l with
  | nil => intro acc m h; cases h
  | cons m₀ rest ih =>
    intro acc m h
    rcases List.mem_cons.mp h with rfl | h₂
    · by_cases hr : m ∈ rest
      · exact ih _ m hr
      · exact mem_merkleFold_acc rest _ _ (Multiset.mem_cons_self _ _)
    · exact ih _ m h₂

/-! Lemmas about `compareMessages`. -/

theorem compareMessages_keep_ts (log : List LogEntry) (m₀ m : Message)
    (h : (if logHasTs log m₀.timestamp then none
      else if log.any fun e =>
          decide (e.dataset = m₀.dataset) && decide (e.row = m₀.row) &&
          decide (e.column = m₀.column) && tsLtb m₀.timestamp e.timestamp then
        some { m₀ with old := true }
      else some { m₀ with old := false }) = some m) :
    m.timestamp = m₀.timestamp ∧ logHasTs log m₀.timestamp = false := by
  cases hts : logHasTs log m₀.timestamp with
  | true => rw [if_pos hts] at h; cases h
  | false =>
    rw [if_neg (by simp [hts])] at h
    by_cases h₂ : (log.any fun e =>
        decide (e.dataset = m₀.dataset) && decide (e.row = m₀.row) &&
        decide (e.column = m₀.column) && tsLtb m₀.timestamp e.timestamp) = true
    · rw [if_pos h₂] at h
      cases h
      exact ⟨rfl, rfl⟩
    · rw [if_neg h₂] at h
      cases h
      exact ⟨rfl, rfl⟩

theorem mem_compareMessages_fresh (log : List LogEntry) (msgs : List Message)
    (m : Message) (hm : m ∈ compareMessages log msgs) :
    logHasTs log m.timestamp = false := by
  unfold compareMessages at hm
  rw [List.mem_filterMap] at hm
  obtain ⟨m₀, _, hf⟩ := hm
  obtain ⟨hts, hfresh⟩ := compareMessages_keep_ts log m₀ m hf
  rw [hts]
  exact hfresh

theorem mem_compareMessages_src (log : List LogEntry) (msgs : List Message)
    (m : Message) (hm : m ∈ compareMessages log msgs) :
    ∃ m₀ ∈ msgs, m.timestamp = m₀.timestamp := by
  unfold compareMessages at hm
  rw [List.mem_filterMap] at hm
  obtain ⟨m₀, hm₀, hf⟩ := hm
  exact ⟨m₀, hm₀, (compareMessages_keep_ts log m₀ m hf).1⟩

theorem compareMessages_nil_of_all_present (log : List LogEntry)
    (msgs : List Message) (h : ∀ m ∈ msgs, logHasTs log m.timestamp = true) :
    compareMessages log msgs = [] := by
  unfold compareMessages
  rw [List.filterMap_eq_nil_iff]
  intro m hm
  rw [if_pos (h m hm)]

theorem compareMessages_pairwise_ne (log : List LogEntry) (msgs : List Message)
    (h : msgs.Pairwise fun a b => a.timestamp ≠ b.timestamp) :
    (compareMessages log msgs).Pairwise fun a b => a.timestamp ≠ b.timestamp := by
  unfold compareMessages
  refine List.Pairwise.filterMap _ ?_ h
  intro a a₂ hne b hb b₂ hb₂
  rw [Option.mem_def] at hb hb₂
  rw [(compareMessages_keep_ts log a b hb).1, (compareMessages_keep_ts log a₂ b₂ hb₂).1]
  exact hne

/-! Projection lemmas for `applyMessages` outside the import fast path. -/

theorem checkSyncingMode_false (mode target : Mode) (h : ¬mode = target) :
    checkSyncingMode mode target = false := by
  simp [checkSyncingMode, h]

theorem applyMessages_error_case (mode : Mode) (w : World) (msgs : List Message)
    (e : SyncError) (hmode : ¬mode = .importMode)
    (h : applyTransaction (checkSyncingMode mode .enabled) w.db
      (sortMessages (effectiveMessages mode w.db.log msgs)) = .error e) :
    applyMessages mode w msgs =
      ⟨{ w with undoLog := w.undoLog ++
          [(sortMessages (effectiveMessages mode w.db.log msgs),
            fetchData w.db (sortMessages (effectiveMessages mode w.db.log msgs)))] },
       some e, []⟩ := by
  unfold applyMessages
  rw [checkSyncingMode_false mode .importMode hmode]
  simp only [Bool.false_eq_true, if_false]
  rw [show ({ w with undoLog := w.undoLog ++
      [(sortMessages (effectiveMessages mode w.db.log msgs),
        fetchData w.db (sortMessages (effectiveMessages mode w.db.log msgs)))] } : World).db
      = w.db from rfl] at h
  rw [h]

theorem applyMessages_ok_case (mode : Mode) (w : World) (msgs : List Message)
    (res : TxResult) (hmode : ¬mode = .importMode)
    (h : applyTransaction (checkSyncingMode mode .enabled) w.db
      (sortMessages (effectiveMessages mode w.db.log msgs)) = .ok res) :
    applyMessages mode w msgs =
      ⟨⟨res.db, w.undoLog ++
          [(sortMessages (effectiveMessages mode w.db.log msgs),
            fetchData w.db (sortMessages (effectiveMessages mode w.db.log msgs)))]⟩,
       none, res.prefsToSet⟩ := by
  unfold applyMessages
  rw [checkSyncingMode_false mode .importMode hmode]
  simp only [Bool.false_eq_true, if_false]
  rw [h]

theorem applyMessages_error_none_inv (mode : Mode) (w : World) (msgs : List Message)
    (hmode : ¬mode = .importMode)
    (herr : (applyMessages mode w msgs).error = none) :
    ∃ res, applyTransaction (checkSyncingMode mode .enabled) w.db
        (sortMessages (effectiveMessages mode w.db.log msgs)) = .ok res ∧
      (applyMessages mode w msgs).world.db = res.db := by
  cases h : applyTransaction (checkSyncingMode mode .enabled) w.db
      (sortMessages (effectiveMessages mode w.db.log msgs)) with
  | error e =>
    rw [applyMessages_error_case mode w msgs e hmode h] at herr
    cases herr
  | ok res =>
    rw [applyMessages_ok_case mode w msgs res hmode h]
    exact ⟨res, rfl, rfl⟩

theorem applyTransaction_rows (em : Bool) (db : DbState) (l : List Message)
    (r : TxResult) (h : applyTransaction em db l = .ok r) :
    r.db.rows = rowsApply l db.rows := by
  cases em with
  | false =>
    obtain ⟨r₂, hr, hrows, _, _⟩ := applyTransaction_false_ok db l
    rw [hr] at h
    cases h
    exact hrows
  | true => exact (applyTransaction_true_components db l r h).1

theorem logHasTs_of_mem (log : List LogEntry) (e : LogEntry) (t : String)
    (he : e ∈ log) (ht : e.timestamp = t) : logHasTs log t = true := by
  simp only [logHasTs, List.any_eq_true, decide_eq_true_eq]
  exact ⟨e, he, ht⟩

theorem compareMessages_mem_of_fresh (log : List LogEntry) (msgs : List Message)
    (m : Message) (hm : m ∈ msgs) (hfresh : logHasTs log m.timestamp = false) :
    ∃ m₂ ∈ compareMessages log msgs, m₂.timestamp = m.timestamp := by
  unfold compareMessages
  by_cases hb : (log.any fun e =>
      decide (e.dataset = m.dataset) && decide (e.row = m.row) &&
      decide (e.column = m.column) && tsLtb m.timestamp e.timestamp) = true
  · refine ⟨{ m with old := true }, ?_, rfl⟩
    rw [List.mem_filterMap]
    exact ⟨m, hm, by rw [if_neg (by simp [hfresh]), if_pos hb]⟩
  · refine ⟨{ m with old := false }, ?_, rfl⟩
    rw [List.mem_filterMap]
    exact ⟨m, hm, by rw [if_neg (by simp [hfresh]), if_neg hb]⟩

/-! Claim theorems. -/

/-- C1: in `applyMessages` the batch is sorted ascending by the string form
of the timestamps before application, so for each `(dataset, row, column)`
cell touched by non-old messages of the processed batch, the persisted value
is that of the message with the greatest timestamp (last-writer-wins),
independent of arrival order. -/
theorem applyMessages_last_writer_wins (mode : Mode) (w : World)
    (msgs : List Message) (m : Message)
    (hmode : ¬mode = .importMode)
    (herr : (applyMessages mode w msgs).error = none)
    (hm : m ∈ effectiveMessages mode w.db.log msgs)
    (hold : m.old = false)
    (hp : m.dataset ≠ "prefs")
    (hmax : ∀ m₂ ∈ effectiveMessages mode w.db.log msgs,
      m₂.old = false → cellOf m₂ = cellOf m → ¬m₂ = m →
      tsLtb m₂.timestamp m.timestamp = true) :
    List.Sorted msgLe (sortMessages (effectiveMessages mode w.db.log msgs)) ∧
    getCell (applyMessages mode w msgs).world.db.rows (cellOf m) = some m.value := by
  refine ⟨List.sorted_insertionSort msgLe _, ?_⟩
  obtain ⟨res, htx, hdb⟩ := applyMessages_error_none_inv mode w msgs hmode herr
  have hrows := applyTransaction_rows _ _ _ _ htx
  rw [hdb, hrows]
  have hmem : m ∈ sortMessages (effectiveMessages mode w.db.log msgs) := by
    unfold sortMessages
    exact (List.mem_insertionSort msgLe).mpr hm
  obtain ⟨l₁, l₂, hsplit⟩ := List.append_of_mem hmem
  have hsorted : List.Sorted msgLe (l₁ ++ m :: l₂) := by
    rw [← hsplit]
    exact List.sorted_insertionSort msgLe _
  have htail : ∀ m₂ ∈ l₂, msgLe m m₂ :=
    (List.pairwise_cons.mp (List.pairwise_append.mp hsorted).2.1).1
  rw [hsplit]
  unfold rowsApply
  rw [List.foldl_append, List.foldl_cons]
  have hset : getCell (rowsApplyStep (List.foldl rowsApplyStep w.db.rows l₁) m)
      (cellOf m) = some m.value := by
    unfold rowsApplyStep applyMsgRow
    simp [hold, hp, getCell_setCell_self]
  refine getCell_rowsApply_keep (cellOf m) m.value l₂ _ ?_ hset
  intro m₂ hm₂ hold₂ hp₂ hc₂
  by_cases heq : m₂ = m
  · rw [heq]
  · have hmem₂ : m₂ ∈ effectiveMessages mode w.db.log msgs := by
      have hin : m₂ ∈ sortMessages (effectiveMessages mode w.db.log msgs) := by
        rw [hsplit]
        exact List.mem_append.mpr (.inr (List.mem_cons_of_mem m hm₂))
      unfold sortMessages at hin
      exact (List.mem_insertionSort msgLe).mp hin
    have hlt := hmax m₂ hmem₂ hold₂ hc₂ heq
    have hle := htail m₂ hm₂
    rw [msgLe, tsLeb, hlt] at hle
    simp at hle

def w1 : World := ⟨⟨[], [], ⟨"0000", (0 : Multiset String)⟩, none⟩, []⟩

def m1A : Message := ⟨"t", "r", "c", "0001", .num 1, false⟩

def m1B : Message := ⟨"t", "r", "c", "0002", .num 2, false⟩

theorem applyMessages_last_writer_wins_witness :
    List.Sorted msgLe (sortMessages (effectiveMessages .disabled w1.db.log [m1B, m1A])) ∧
    getCell (applyMessages .disabled w1 [m1B, m1A]).world.db.rows (cellOf m1B) =
      some m1B.value :=
  applyMessages_last_writer_wins .disabled w1 [m1B, m1A] m1B (by decide) (by decide)
    (by decide) (by decide) (by decide) (by decide)

/-- C2: if the transaction inside `applyMessages` raises a storage error,
the caller sees that error and the persisted database (rows, messages_crdt
log, messages_clock row) is exactly the state before the call. -/
theorem applyMessages_atomic_on_failure (mode : Mode) (w : World)
    (msgs : List Message) (e : SyncError) (hmode : ¬mode = .importMode)
    (hfail : applyTransaction (checkSyncingMode mode .enabled) w.db
      (sortMessages (effectiveMessages mode w.db.log msgs)) = .error e) :
    (applyMessages mode w msgs).error = some e ∧
    (applyMessages mode w msgs).world.db = w.db := by
  rw [applyMessages_error_case mode w msgs e hmode hfail]
  exact ⟨rfl, rfl⟩

def w2 : World := ⟨⟨[], [], ⟨"0000", (0 : Multiset String)⟩, none⟩, []⟩

def msgs2 : List Message :=
  [⟨"t", "r", "c", "0001", .num 1, false⟩, ⟨"t", "r", "c2", "0001", .num 2, false⟩]

theorem applyMessages_atomic_on_failure_witness :
    (applyMessages .enabled w2 msgs2).error = some (.uniqueViolation "0001") ∧
    (applyMessages .enabled w2 msgs2).world.db = w2.db :=
  applyMessages_atomic_on_failure .enabled w2 msgs2 (.uniqueViolation "0001")
    (by decide) (by decide)

/-- C3: a message marked old by `compareMessages` skips the row mutation
(its loop step is the identity on the live rows) but is still inserted into
`messages_crdt` and its timestamp still folded into the merkle trie. -/
theorem applyMessages_old_still_logged (w : World) (msgs : List Message)
    (m : Message)
    (herr : (applyMessages .enabled w msgs).error = none)
    (hm : m ∈ effectiveMessages .enabled w.db.log msgs)
    (hold : m.old = true) :
    (∀ rows, rowsApplyStep rows m = rows) ∧
    toLogEntry m ∈ (applyMessages .enabled w msgs).world.db.log ∧
    m.timestamp ∈ (applyMessages .enabled w msgs).world.db.clockRow.merkle := by
  obtain ⟨res, htx, hdb⟩ := applyMessages_error_none_inv .enabled w msgs (by decide) herr
  obtain ⟨_, hlog, hclock⟩ := applyTransaction_true_components _ _ _ htx
  have hmem : m ∈ sortMessages (effectiveMessages .enabled w.db.log msgs) := by
    unfold sortMessages
    exact (List.mem_insertionSort msgLe).mpr hm
  refine ⟨fun rows => by simp [rowsApplyStep, hold], ?_, ?_⟩
  · rw [hdb, hlog]
    exact List.mem_append.mpr (.inr (List.mem_map_of_mem toLogEntry hmem))
  · rw [hdb, hclock]
    exact mem_merkleFold_of_mem _ _ m hmem

def w3 : World :=
  ⟨⟨[], [⟨"0005", "t", "r", "c", "N:7"⟩], ⟨"0000", (0 : Multiset String)⟩, none⟩, []⟩

def m3old : Message := ⟨"t", "r", "c", "0003", .num 3, true⟩

theorem applyMessages_old_still_logged_witness :
    (∀ rows, rowsApplyStep rows m3old = rows) ∧
    toLogEntry m3old ∈
      (applyMessages .enabled w3 [⟨"t", "r", "c", "0003", .num 3, false⟩]).world.db.log ∧
    m3old.timestamp ∈
      (applyMessages .enabled w3
        [⟨"t", "r", "c", "0003", .num 3, false⟩]).world.db.clockRow.merkle :=
  applyMessages_old_still_logged w3 [⟨"t", "r", "c", "0003", .num 3, false⟩] m3old
    (by decide) (by decide) rfl

/-- C5: `applyMessages` is idempotent in enabled mode — once a batch has been
applied successfully, applying the exact same batch again succeeds and
leaves rows, mutation log, clock and merkle trie (the whole persisted
database) unchanged. -/
theorem applyMessages_idempotent (w : World) (msgs : List Message)
    (herr : (applyMessages .enabled w msgs).error = none) :
    (applyMessages .enabled (applyMessages .enabled w msgs).world msgs).error = none ∧
    (applyMessages .enabled (applyMessages .enabled w msgs).world msgs).world.db =
      (applyMessages .enabled w msgs).world.db := by
  obtain ⟨res, htx, hdb⟩ := applyMessages_error_none_inv .enabled w msgs (by decide) herr
  obtain ⟨_, hlog, _⟩ := applyTransaction_true_components _ _ _ htx
  have hall : ∀ m ∈ msgs,
      logHasTs (applyMessages .enabled w msgs).world.db.log m.timestamp = true := by
    intro m hm
    rw [hdb, hlog, logHasTs_append]
    cases hts : logHasTs w.db.log m.timestamp with
    | true => rfl
    | false =>
      obtain ⟨m₂, hm₂, hts₂⟩ := compareMessages_mem_of_fresh w.db.log msgs m hm hts
      have hmem : m₂ ∈ sortMessages (effectiveMessages .enabled w.db.log msgs) := by
        unfold sortMessages
        exact (List.mem_insertionSort msgLe).mpr hm₂
      have : logHasTs ((sortMessages (effectiveMessages .enabled w.db.log msgs)).map
          toLogEntry) m.timestamp = true :=
        logHasTs_of_mem _ (toLogEntry m₂) _ (List.mem_map_of_mem toLogEntry hmem) hts₂
      rw [this]
      simp
  have heff : effectiveMessages .enabled
      (applyMessages .enabled w msgs).world.db.log msgs = [] :=
    compareMessages_nil_of_all_present _ msgs hall
  have htx₂ : applyTransaction (checkSyncingMode .enabled .enabled)
      (applyMessages .enabled w msgs).world.db
      (sortMessages (effectiveMessages .enabled
        (applyMessages .enabled w msgs).world.db.log msgs)) =
      .ok ⟨(applyMessages .enabled w msgs).world.db, []⟩ := by
    rw [heff]
    rfl
  rw [applyMessages_ok_case .enabled (applyMessages .enabled w msgs).world msgs
    ⟨(applyMessages .enabled w msgs).world.db, []⟩ (by decide) htx₂]
  exact ⟨rfl, rfl⟩

def w5 : World := ⟨⟨[], [], ⟨"0000", (0 : Multiset String)⟩, none⟩, []⟩

def msgs5 : List Message :=
  [⟨"t", "r", "c", "0001", .num 1, false⟩, ⟨"t", "r", "c", "0002", .num 2, false⟩]

theorem applyMessages_idempotent_witness :
    (applyMessages .enabled (applyMessages .enabled w5 msgs5).world msgs5).error = none ∧
    (applyMessages .enabled (applyMessages .enabled w5 msgs5).world msgs5).world.db =
      (applyMessages .enabled w5 msgs5).world.db :=
  applyMessages_idempotent w5 msgs5 (by decide)

/-- C7: with syncing disabled or offline, `applyMessages` still applies the
batch to the live rows (through the same sorted loop) but succeeds without
touching the mutation log, the persisted clock or the merkle trie. -/
theorem applyMessages_disabled_frame (mode : Mode) (w : World)
    (msgs : List Message) (hmode : mode = .disabled ∨ mode = .offline) :
    (applyMessages mode w msgs).error = none ∧
    (applyMessages mode w msgs).world.db.log = w.db.log ∧
    (applyMessages mode w msgs).world.db.clockRow = w.db.clockRow ∧
    (applyMessages mode w msgs).world.db.rows =
      rowsApply (sortMessages msgs) w.db.rows := by
  have hmode₂ : ¬mode = .importMode := by
    rcases hmode with rfl | rfl <;> decide
  have hen : checkSyncingMode mode .enabled = false := by
    rcases hmode with rfl | rfl <;> rfl
  have heff : effectiveMessages mode w.db.log msgs = msgs := by
    unfold effectiveMessages
    rw [hen]
    simp
  obtain ⟨r, hr, hrows, hlog, hclock⟩ := applyTransaction_false_ok w.db (sortMessages msgs)
  have htx : applyTransaction (checkSyncingMode mode .enabled) w.db
      (sortMessages (effectiveMessages mode w.db.log msgs)) = .ok r := by
    rw [hen, heff]
    exact hr
  rw [applyMessages_ok_case mode w msgs r hmode₂ htx]
  exact ⟨rfl, hlog, hclock, hrows⟩

def w7 : World :=
  ⟨⟨[], [⟨"0001", "t", "r", "c", "N:1"⟩], ⟨"0009", (0 : Multiset String)⟩, none⟩, []⟩

theorem applyMessages_disabled_frame_witness :
    (applyMessages .disabled w7 [⟨"t", "r", "c", "0002", .num 2, false⟩]).error = none ∧
    (applyMessages .disabled w7
      [⟨"t", "r", "c", "0002", .num 2, false⟩]).world.db.log = w7.db.log ∧
    (applyMessages .disabled w7
      [⟨"t", "r", "c", "0002", .num 2, false⟩]).world.db.clockRow = w7.db.clockRow ∧
    (applyMessages .disabled w7
      [⟨"t", "r", "c", "0002", .num 2, false⟩]).world.db.rows =
      rowsApply (sortMessages [⟨"t", "r", "c", "0002", .num 2, false⟩]) w7.db.rows :=
  applyMessages_disabled_frame .disabled w7 [⟨"t", "r", "c", "0002", .num 2, false⟩]
    (.inl rfl)

/-- C6 counterexample: an `applyMessages` invocation whose storage
transaction fails (here a duplicate timestamp in the batch violates the
UNIQUE constraint of `messages_crdt`) nonetheless hands the batch to the
undo collaborator, because `undo.appendMessages(messages, oldData)` runs
before `db.transaction` — refuting the claim that the undo collaborator
receives nothing when the transaction fails. -/
theorem undo_receives_despite_failed_transaction :
    (applyMessages .enabled ⟨⟨[], [], ⟨"0000", (0 : Multiset String)⟩, none⟩, []⟩
      [⟨"t", "r", "c", "0001", .num 1, false⟩,
       ⟨"t", "r", "c2", "0001", .num 2, false⟩]).error.isSome = true ∧
    (applyMessages .enabled ⟨⟨[], [], ⟨"0000", (0 : Multiset String)⟩, none⟩, []⟩
      [⟨"t", "r", "c", "0001", .num 1, false⟩,
       ⟨"t", "r", "c2", "0001", .num 2, false⟩]).world.undoLog ≠ [] := by
  decide

/-- C6 (amended): the undo collaborator receives the (sorted, filtered)
batch together with the pre-image map before the storage transaction runs,
on every `applyMessages` invocation outside the import fast path — also on
invocations whose transaction subsequently fails. -/
theorem undo_receives_batch_before_transaction (mode : Mode) (w : World)
    (msgs : List Message) (hmode : ¬mode = .importMode) :
    (applyMessages mode w msgs).world.undoLog =
      w.undoLog ++
        [(sortMessages (effectiveMessages mode w.db.log msgs),
          fetchData w.db (sortMessages (effectiveMessages mode w.db.log msgs)))] := by
  cases h : applyTransaction (checkSyncingMode mode .enabled) w.db
      (sortMessages (effectiveMessages mode w.db.log msgs)) with
  | error e => rw [applyMessages_error_case mode w msgs e hmode h]
  | ok res => rw [applyMessages_ok_case mode w msgs res hmode h]

def w6 : World := ⟨⟨[], [], ⟨"0000", (0 : Multiset String)⟩, none⟩, []⟩

def msgs6 : List Message :=
  [⟨"t", "r", "c", "0001", .num 1, false⟩, ⟨"t", "r", "c2", "0001", .num 2, false⟩]

theorem undo_receives_batch_before_transaction_witness :
    (applyMessages .enabled w6 msgs6).world.undoLog =
      w6.undoLog ++
        [(sortMessages (effectiveMessages .enabled w6.db.log msgs6),
          fetchData w6.db (sortMessages (effectiveMessages .enabled w6.db.log msgs6)))] :=
  undo_receives_batch_before_transaction .enabled w6 msgs6 (by decide)

/-- C9: `messages_crdt.timestamp` is UNIQUE, so inserting a message whose
exact timestamp is already stored fails (aborting the apply transaction);
`compareMessages` filters such duplicates out beforehand, so an enabled-mode
batch with pairwise-distinct timestamps always applies without error. -/
theorem messages_crdt_timestamp_unique (log : List LogEntry) (msgs : List Message)
    (w : World) :
    (∀ m : Message, logHasTs log m.timestamp = true →
      insertMessageCrdt log m = .error (.uniqueViolation m.timestamp)) ∧
    (∀ m ∈ compareMessages log msgs, logHasTs log m.timestamp = false) ∧
    (msgs.Pairwise (fun a b => a.timestamp ≠ b.timestamp) →
      (applyMessages .enabled w msgs).error = none) := by
  refine ⟨?_, fun m hm => mem_compareMessages_fresh log msgs m hm, ?_⟩
  · intro m h
    simp [insertMessageCrdt, h]
  · intro hpw
    have hpw₂ := compareMessages_pairwise_ne w.db.log msgs hpw
    have hperm : List.Perm (sortMessages (compareMessages w.db.log msgs))
        (compareMessages w.db.log msgs) := List.perm_insertionSort _ _
    have hpw₃ := (hperm.pairwise_iff fun h => Ne.symm h).mpr hpw₂
    have hfresh : ∀ m₂ ∈ sortMessages (compareMessages w.db.log msgs),
        logHasTs w.db.log m₂.timestamp = false := fun m₂ hm₂ =>
      mem_compareMessages_fresh _ _ _ ((List.mem_insertionSort msgLe).mp hm₂)
    obtain ⟨r, hr⟩ := applyTransaction_true_ok_of_fresh w.db _ hpw₃ hfresh
    have heq : effectiveMessages .enabled w.db.log msgs =
        compareMessages w.db.log msgs := rfl
    have htx : applyTransaction (checkSyncingMode .enabled .enabled) w.db
        (sortMessages (effectiveMessages .enabled w.db.log msgs)) = .ok r := by
      rw [heq]
      exact hr
    rw [applyMessages_ok_case .enabled w msgs r (by decide) htx]

def log9 : List LogEntry := [⟨"0005", "t", "r", "c", "N:7"⟩]

def msgs9 : List Message := [⟨"t", "r", "c", "0003", .num 3, false⟩]

def w9 : World := ⟨⟨[], log9, ⟨"0000", (0 : Multiset String)⟩, none⟩, []⟩

theorem messages_crdt_timestamp_unique_witness :
    insertMessageCrdt log9 ⟨"t", "r", "c", "0005", .num 9, false⟩ =
      .error (.uniqueViolation "0005") ∧
    logHasTs log9 (⟨"t", "r", "c", "0003", .num 3, true⟩ : Message).timestamp = false ∧
    (applyMessages .enabled w9 msgs9).error = none :=
  ⟨(messages_crdt_timestamp_unique log9 msgs9 w9).1
      ⟨"t", "r", "c", "0005", .num 9, false⟩ (by decide),
   (messages_crdt_timestamp_unique log9 msgs9 w9).2.1
      ⟨"t", "r", "c", "0003", .num 3, true⟩ (by decide),
   (messages_crdt_timestamp_unique log9 msgs9 w9).2.2 (by decide)⟩

/-! The bounded retry loop of `_fullSync`. -/

theorem fullSyncLoop_outOfSync_of_never (d : Nat → Option String) :
    ∀ (fuel count : Nat) (prevDiff : Option String),
      1 ≤ count → count ≤ 100 → 101 ≤ count + fuel →
      (∀ k, count ≤ k → d k ≠ none) →
      ∃ n, count ≤ n ∧ n ≤ 100 ∧ fullSyncLoop d fuel count prevDiff = .outOfSync n := by
  intro fuel
  induction fuel with
  | zero => intro count prevDiff h₁ h₂ h₃ _; omega
  | succ fuel ih =>
    intro count prevDiff h₁ h₂ h₃ hd
    cases hdc : d count with
    | none => exact absurd hdc (hd count le_rfl)
    | some t =>
      simp only [fullSyncLoop, hdc]
      by_cases hstop : (10 ≤ count ∧ some t = prevDiff) ∨ 100 ≤ count
      · rw [if_pos hstop]
        exact ⟨count, le_rfl, h₂, rfl⟩
      · rw [if_neg hstop]
        have hc : count < 100 := by
          rcases Nat.lt_or_ge count 100 with h | h
          · exact h
          · exact absurd (Or.inr h) hstop
        obtain ⟨n, hn₁, hn₂, hn₃⟩ := ih (count + 1) (some t) (by omega) (by omega)
          (by omega) (fun k hk => hd k (by omega))
        exact ⟨n, by omega, hn₂, hn₃⟩

theorem fullSyncLoop_outOfSync_of_streak (d : Nat → Option String) (r : Nat)
    (t : String) (hr : 1 ≤ r)
    (hnn : ∀ k, 1 ≤ k → k ≤ r + 9 → d k ≠ none)
    (hstreak : ∀ k, r ≤ k → k ≤ r + 9 → d k = some t) :
    ∀ (fuel count : Nat) (prevDiff : Option String),
      count + fuel = 201 → 1 ≤ count → count ≤ 100 → count ≤ r + 9 →
      (r < count → prevDiff = d (count - 1)) →
      ∃ n, n ≤ r + 9 ∧ fullSyncLoop d fuel count prevDiff = .outOfSync n := by
  intro fuel
  induction fuel with
  | zero => intro count prevDiff hf h₁ h₂ _ _; omega
  | succ fuel ih =>
    intro count prevDiff hf h₁ h₂ h₃ hprev
    cases hdc : d count with
    | none => exact absurd hdc (hnn count h₁ h₃)
    | some tc =>
      simp only [fullSyncLoop, hdc]
      by_cases hstop : (10 ≤ count ∧ some tc = prevDiff) ∨ 100 ≤ count
      · rw [if_pos hstop]
        exact ⟨count, h₃, rfl⟩
      · rw [if_neg hstop]
        rw [not_or, not_and_or] at hstop
        have hc100 : count < 100 := by
          have h₄ := hstop.2
          omega
        have hcount_lt : count < r + 9 := by
          by_contra hge
          have hceq : count = r + 9 := by omega
          have h10 : 10 ≤ count := by omega
          have hrc : r < count := by omega
          have hpe : prevDiff = d (count - 1) := hprev hrc
          have hd₁ : d (count - 1) = some t := hstreak _ (by omega) (by omega)
          have hd₂ : d count = some t := hstreak _ (by omega) (by omega)
          rw [hdc] at hd₂
          rcases hstop.1 with hbad | hbad
          · exact hbad h10
          · exact hbad (by rw [hpe, hd₁, hd₂])
        obtain ⟨n, hn₁, hn₂⟩ := ih (count + 1) (some tc) (by omega) (by omega)
          (by omega) (by omega) (fun _ => by simp [hdc])
        exact ⟨n, hn₁, hn₂⟩

/-- C4: the `_fullSync` retry loop is bounded — against a peer whose merkle
diff never comes back null it raises OutOfSync within 100 rounds, and a diff
timestamp that stays identical across at least 10 consecutive rounds makes
it raise OutOfSync within those rounds rather than looping further. -/
theorem fullSync_bounded_retries (d : Nat → Option String) :
    ((∀ k, 1 ≤ k → d k ≠ none) →
      ∃ n, n ≤ 100 ∧ runFullSyncLoop d = .outOfSync n) ∧
    (∀ (r : Nat) (t : String), 1 ≤ r →
      (∀ k, 1 ≤ k → k ≤ r + 9 → d k ≠ none) →
      (∀ k, r ≤ k → k ≤ r + 9 → d k = some t) →
      ∃ n, n ≤ r + 9 ∧ runFullSyncLoop d = .outOfSync n) := by
  constructor
  · intro hd
    obtain ⟨n, _, hn₂, hn₃⟩ := fullSyncLoop_outOfSync_of_never d 200 1 none
      (by omega) (by omega) (by omega) (fun k hk => hd k hk)
    exact ⟨n, hn₂, hn₃⟩
  · intro r t hr hnn hstreak
    obtain ⟨n, hn₁, hn₂⟩ := fullSyncLoop_outOfSync_of_streak d r t hr hnn hstreak
      200 1 none (by omega) (by omega) (by omega) (by omega)
      (fun h => absurd h (by omega))
    exact ⟨n, hn₁, hn₂⟩

theorem fullSync_bounded_retries_witness :
    ∃ n, n ≤ 100 ∧ runFullSyncLoop (fun _ => some "x") = .outOfSync n :=
  (fullSync_bounded_retries (fun _ => some "x")).1 (fun k _ => by simp)

/-- C8: if, after the network round-trip, the prefs are gone or the
replica-group id differs from the snapshot taken at the start of the round,
`_fullSync` returns an empty message list with no error and without applying
the peer's messages — the local world is untouched. -/
theorem fullSync_abort_on_identity_change (mode : Mode) (w : World) (p : Prefs)
    (now : Nat) (sinceArg : Option String) (peer : SyncRequest → SyncResponse)
    (prefsAfter : Option Prefs)
    (hid : ∀ p₂, prefsAfter = some p₂ → p₂.groupId ≠ p.groupId) :
    fullSyncStep mode w (some p) now sinceArg peer prefsAfter = (w, .ok []) := by
  by_cases hmode : (checkSyncingMode mode .disabled || checkSyncingMode mode .offline
      || p.id.isNone) = true
  · simp [fullSyncStep, hmode]
  · cases prefsAfter with
    | none => simp [fullSyncStep, hmode]
    | some p₂ => simp [fullSyncStep, hmode, hid p₂ rfl]

def w8 : World := ⟨⟨[], [], ⟨"0000", (0 : Multiset String)⟩, none⟩, []⟩

def p8 : Prefs := ⟨some "file", some "cloud", some "group", none⟩

theorem fullSync_abort_on_identity_change_witness :
    fullSyncStep .enabled w8 (some p8) 1000000 none
      (fun _ => ⟨[⟨"t", "r", "c", "0001", .num 1, false⟩], (0 : Multiset String)⟩)
      (some ⟨some "file", some "cloud", some "other", none⟩) = (w8, .ok []) :=
  fullSync_abort_on_identity_change .enabled w8 p8 1000000 none
    (fun _ => ⟨[⟨"t", "r", "c", "0001", .num 1, false⟩], (0 : Multiset String)⟩)
    (some ⟨some "file", some "cloud", some "other", none⟩)
    (fun p₂ h => by cases h; decide)

/-- C10: with no explicit cursor and no lastSyncedTimestamp preference, the
sync request's since bound is the timestamp 5 minutes (300000 ms) before the
current wall-clock time, with counter 0 and replica id "0", and only
mutation-log entries strictly newer than it are sent. -/
theorem fullSync_default_since (p : Prefs) (db : DbState) (now : Nat)
    (hls : p.lastSyncedTimestamp = none) (hnow : 300000 ≤ now) :
    (fullSyncRequest p db now none).since = (defaultSinceTs now).toStr ∧
    (defaultSinceTs now).millis + 300000 = now ∧
    (defaultSinceTs now).counter = 0 ∧
    (defaultSinceTs now).node = "0" ∧
    (fullSyncRequest p db now none).messages =
      db.log.filter fun e => tsLtb (defaultSinceTs now).toStr e.timestamp := by
  refine ⟨?_, ?_, rfl, rfl, ?_⟩
  · simp [fullSyncRequest, resolveSince, hls]
  · show now - 5 * 60 * 1000 + 300000 = now
    omega
  · simp [fullSyncRequest, resolveSince, hls, getMessagesSince]

def db10 : DbState :=
  ⟨[], [⟨"000000000000500-00000-1", "t", "r", "c", "N:1"⟩],
   ⟨"0000", (0 : Multiset String)⟩, none⟩

theorem fullSync_default_since_witness :
    (fullSyncRequest ⟨some "file", some "cloud", some "group", none⟩ db10
      1000000 none).since = (defaultSinceTs 1000000).toStr ∧
    (defaultSinceTs 1000000).millis + 300000 = 1000000 ∧
    (defaultSinceTs 1000000).counter = 0 ∧
    (defaultSinceTs 1000000).node = "0" ∧
    (fullSyncRequest ⟨some "file", some "cloud", some "group", none⟩ db10
      1000000 none).messages =
      db10.log.filter fun e => tsLtb (defaultSinceTs 1000000).toStr e.timestamp :=
  fullSync_default_since ⟨some "file", some "cloud", some "group", none⟩ db10
    1000000 rfl (by omega)

end ActualSync
